import Mathlib

/-!
Verification of a small content-addressable object store (a git-like CLI with
the subcommands init, cat-file, hash-object and ls-tree) against its
natural-language specification.

Bytes are modelled as natural numbers (each Go byte lies below 256); Go strings
are byte sequences, modelled as `List Nat`.  Pure functions of the source are
translated directly; filesystem and compression effects are passed in as
explicit parameters (outcome of os.Open, os.ReadFile, os.Stat, the zlib codec,
directory existence), and the process-wide current working directory is
threaded as explicit state.
-/

/-- Bytes of the ASCII string "blob". -/
def blobBytes : List Nat := [98, 108, 111, 98]

/-- Bytes of the ASCII string "tree". -/
def treeBytes : List Nat := [116, 114, 101, 101]

/-- Bytes of the ASCII string ".git/objects/" (with the trailing slash). -/
def gitObjectsDir : List Nat := [46, 103, 105, 116, 47, 111, 98, 106, 101, 99, 116, 115, 47]

/-- Bytes of the ASCII string "hello" followed by a newline. -/
def helloBytes : List Nat := [104, 101, 108, 108, 111, 10]

/-- Split a byte sequence at the first occurrence of the byte sep: the
combined behaviour of strings.SplitN(s, sep, 2) (none when sep does not occur,
matching a length-1 result slice) and of strings.IndexByte plus the two
slicings around the found index. -/
def splitFirst (sep : Nat) : List Nat → Option (List Nat × List Nat)
  | [] => none
  | c :: rest =>
    if c = sep then some ([], rest)
    else
      match splitFirst sep rest with
      | none => none
      | some (a, b) => some (c :: a, b)

/-- Decimal digit byte test used by the embedded strconv.Atoi. -/
def isDigitByte (c : Nat) : Bool := decide (48 ≤ c ∧ c ≤ 57)

/-- Value of a sequence of decimal digit bytes, most significant first,
as accumulated by strconv.ParseInt. -/
def digitsVal (s : List Nat) : Nat := s.foldl (fun a d => 10 * a + (d - 48)) 0

/-- Embedding of strconv.Atoi on byte sequences: an optional single leading
sign byte followed by a nonempty run of decimal digits, the value constrained
to the 64-bit int range; every other input yields an error (none). -/
def atoi (s : List Nat) : Option Int :=
  match s with
  | [] => none
  | c :: _ =>
    let digits := if c = 45 ∨ c = 43 then s.tail else s
    if digits = [] then none
    else if digits.all isDigitByte then
      let v : Nat := digitsVal digits
      if c = 45 then
        if v ≤ 2 ^ 63 then some (-(v : Int)) else none
      else
        if v ≤ 2 ^ 63 - 1 then some (v : Int) else none
    else none

/-- Header of a parsed git object, from the source struct GitObjectHeader. -/
structure GitObjectHeader where
  objectType : List Nat
  size : Int
deriving DecidableEq, Repr

/-- The three distinct error messages produced by parseGitObject. -/
inductive ParseError where
  /-- invalid object header (no space found by SplitN) -/
  | noSpace
  /-- invalid object format (missing null byte) -/
  | missingNull
  /-- invalid size in object header (strconv.Atoi failed) -/
  | invalidSize
deriving DecidableEq, Repr

/-- Result of parseGitObject: either one of its errors, or the header
together with the remaining object data. -/
inductive ParseResult where
  | err (e : ParseError)
  | ok (header : GitObjectHeader) (objectData : List Nat)
deriving DecidableEq, Repr

/-- Embedding of parseGitObject: split on the first space, locate the first
NUL byte of the remainder, Atoi the bytes in between, and return the header
together with everything after the NUL. -/
def parseGitObject (content : List Nat) : ParseResult :=
  match splitFirst 32 content with
  | none => .err .noSpace
  | some (objectType, rest) =>
    match splitFirst 0 rest with
    | none => .err .missingNull
    | some (sizeStr, objectData) =>
      match atoi sizeStr with
      | none => .err .invalidSize
      | some size => .ok ⟨objectType, size⟩ objectData

/-- Fuel-driven decimal rendering of a natural number, as produced by the
%d verb of fmt.Sprintf for a non-negative value. -/
def natDigitsAux : Nat → Nat → List Nat
  | 0, _ => []
  | fuel + 1, n =>
    if n < 10 then [48 + n]
    else natDigitsAux fuel (n / 10) ++ [48 + n % 10]

/-- Decimal digit bytes of a natural number (fmt.Sprintf "%d"). -/
def natDigits (n : Nat) : List Nat := natDigitsAux (n + 1) n

/-- Canonical encoding of an object, as built by the hash-object branch:
fmt.Sprintf("<type> %d\x00%s", len p, p).  The source formats only blobs;
the type is a parameter here so the same definition covers tree headers. -/
def encodeObject (t : List Nat) (p : List Nat) : List Nat :=
  t ++ 32 :: (natDigits p.length ++ 0 :: p)

/-- Left rotation of a 32-bit word, written with multiplication and division
so that the result is reduced modulo 2^32. -/
def rotl (n x : Nat) : Nat := (x * 2 ^ n + x / 2 ^ (32 - n)) % 2 ^ 32

/-- Big-endian word value of a byte sequence. -/
def beWord (bs : List Nat) : Nat := bs.foldl (fun a b => 256 * a + b) 0

/-- The n big-endian bytes of a value (most significant first). -/
def beBytes (n : Nat) (v : Nat) : List Nat :=
  (List.range n).map (fun i => v / 2 ^ (8 * (n - 1 - i)) % 256)

/-- SHA-1 message padding: a 0x80 byte, zero bytes up to 56 modulo 64, and
the 64-bit big-endian bit length. -/
def sha1pad (msg : List Nat) : List Nat :=
  msg ++ 128 :: (List.replicate ((119 - msg.length % 64) % 64) 0 ++ beBytes 8 (msg.length * 8))

/-- Fuel-driven split of a byte sequence into 64-byte blocks. -/
def chunksAux : Nat → List Nat → List (List Nat)
  | 0, _ => []
  | fuel + 1, bs => if bs.isEmpty then [] else bs.take 64 :: chunksAux fuel (bs.drop 64)

/-- Split a byte sequence into 64-byte blocks. -/
def chunks (bs : List Nat) : List (List Nat) := chunksAux (bs.length + 1) bs

/-- The 16 big-endian 32-bit words of one 64-byte block. -/
def blockWords (block : List Nat) : List Nat :=
  (List.range 16).map (fun i => beWord ((block.drop (4 * i)).take 4))

/-- Extension of the 16 block words by t further schedule words, each the
left-rotation by one of the xor of the words 3, 8, 14 and 16 positions back. -/
def extendWords (ws : List Nat) : Nat → List Nat
  | 0 => ws
  | t + 1 =>
    let prev := extendWords ws t
    let n := prev.length
    prev ++ [rotl 1 ((prev.getD (n - 3) 0) ^^^ (prev.getD (n - 8) 0) ^^^
                     (prev.getD (n - 14) 0) ^^^ (prev.getD (n - 16) 0))]

/-- The 80 schedule words of one block. -/
def sched (block : List Nat) : List Nat := extendWords (blockWords block) 64

/-- The 80 SHA-1 rounds over a schedule, starting from the five chaining
words. -/
def sha1rounds (w : List Nat) (h : Nat × Nat × Nat × Nat × Nat) :
    Nat × Nat × Nat × Nat × Nat :=
  (List.range 80).foldl (fun st i =>
    let a := st.1; let b := st.2.1; let c := st.2.2.1
    let d := st.2.2.2.1; let e := st.2.2.2.2
    let f := if i < 20 then (b &&& c) ||| ((4294967295 - b) &&& d)
             else if i < 40 then b ^^^ c ^^^ d
             else if i < 60 then (b &&& c) ||| (b &&& d) ||| (c &&& d)
             else b ^^^ c ^^^ d
    let k := if i < 20 then 1518500249 else if i < 40 then 1859775393
             else if i < 60 then 2400959708 else 3395469782
    let temp := (rotl 5 a + f + e + k + w.getD i 0) % 4294967296
    (temp, a, rotl 30 b, c, d)) h

/-- One SHA-1 block step: run the rounds and add the result into the
chaining words modulo 2^32. -/
def sha1block (hs : Nat × Nat × Nat × Nat × Nat) (block : List Nat) :
    Nat × Nat × Nat × Nat × Nat :=
  let r := sha1rounds (sched block) hs
  ((hs.1 + r.1) % 4294967296, (hs.2.1 + r.2.1) % 4294967296,
   (hs.2.2.1 + r.2.2.1) % 4294967296, (hs.2.2.2.1 + r.2.2.2.1) % 4294967296,
   (hs.2.2.2.2 + r.2.2.2.2) % 4294967296)

/-- The five 32-bit chaining words of SHA-1 over a message. -/
def sha1core (msg : List Nat) : Nat × Nat × Nat × Nat × Nat :=
  (chunks (sha1pad msg)).foldl sha1block
    (1732584193, 4023233417, 2562383102, 271733878, 3285377520)

/-- The 20-byte SHA-1 digest of a message (crypto/sha1 Sum). -/
def sha1 (msg : List Nat) : List Nat :=
  beBytes 4 (sha1core msg).1 ++ beBytes 4 (sha1core msg).2.1 ++
  beBytes 4 (sha1core msg).2.2.1 ++ beBytes 4 (sha1core msg).2.2.2.1 ++
  beBytes 4 (sha1core msg).2.2.2.2

/-- Lowercase hexadecimal digit byte of a value below 16 (fmt %x). -/
def hexDigit (k : Nat) : Nat := if k < 10 then 48 + k else 87 + k

/-- The two lowercase hexadecimal digit bytes of one byte (fmt %x). -/
def hexByte (b : Nat) : List Nat := [hexDigit (b / 16 % 16), hexDigit (b % 16)]

/-- Lowercase hexadecimal rendering of a byte sequence, two digits per byte,
as produced by fmt.Sprintf("%x", sha). -/
def toHex : List Nat → List Nat
  | [] => []
  | b :: bs => hexByte b ++ toHex bs

/-- The digest string hash-object prints for a payload p read from the file:
lowercase hex of the SHA-1 of the canonical blob encoding of p. -/
def writeDigest (p : List Nat) : List Nat := toHex (sha1 (encodeObject blobBytes p))

/-- The path-building loop of the hash-object branch: append each digest
character, inserting a slash after the character at index 1. -/
def buildBlobPath : Nat → List Nat → List Nat
  | _, [] => []
  | i, c :: rest =>
    c :: (if i = 1 then 47 :: buildBlobPath (i + 1) rest else buildBlobPath (i + 1) rest)

/-- The object path the hash-object branch builds for a digest string:
".git/objects/" followed by the digest with a slash inserted after its
second character. -/
def blobPathOf (hash : List Nat) : List Nat := gitObjectsDir ++ buildBlobPath 0 hash

/-- Result of DecompressAndRead: the Go function returns either a non-nil
error built by errors.New carrying the given message bytes (with the content
string empty), or the decompressed content. -/
inductive DecompressResult where
  | err (msg : List Nat)
  | ok (data : List Nat)
deriving DecidableEq, Repr

/-- Embedding of DecompressAndRead.  Its three fallible steps are passed in
as outcomes: whether os.Open succeeded, whether zlib.NewReader succeeded, and
the outcome of io.ReadAll.  Each failure path prints a diagnostic to standard
output (not modelled) and returns errors.New("") whose message is empty. -/
def DecompressAndReadGo (openOk : Bool) (zlibOk : Bool)
    (readRes : Option (List Nat)) : DecompressResult :=
  if openOk = false then .err []
  else if zlibOk = false then .err []
  else
    match readRes with
    | none => .err []
    | some d => .ok d

/-- Outcome of the hash-object branch: either the nil-pointer panic of
stats.Size() when os.Stat failed, or the object file write (path and stored
bytes) together with the printed digest. -/
inductive HashObjectResult where
  | panic
  | ok (path : List Nat) (stored : List Nat) (printed : List Nat)
deriving DecidableEq, Repr

/-- Embedding of the hash-object branch.  The outcomes of os.ReadFile and
os.Stat are passed in; both errors are discarded by the source, so a failed
read leaves the content empty (Go returns a nil slice) and a failed stat
leaves stats nil, making the stats.Size() call inside the Sprintf panic
before anything is written.  The zlib writer is the compress parameter. -/
def hashObjectGo (compress : List Nat → List Nat) (readRes : Option (List Nat))
    (statRes : Option Nat) : HashObjectResult :=
  match statRes with
  | none => .panic
  | some size =>
    let content := readRes.getD []
    let cah := blobBytes ++ 32 :: (natDigits size ++ 0 :: content)
    let hash := toHex (sha1 cah)
    .ok (blobPathOf hash) (compress cah) hash

/-- The filesystem write performed by a hash-object outcome: none when the
branch panicked before reaching os.Create. -/
def writesOf : HashObjectResult → Option (List Nat × List Nat)
  | .panic => none
  | .ok path stored _ => some (path, stored)

/-- Process-wide state threaded through the commands: the current working
directory as a byte path. -/
structure ProcState where
  cwd : List Nat
deriving DecidableEq, Repr

/-- Outcome of the cat-file branch. -/
inductive CatFileOutcome where
  /-- runtime panic: hash has fewer than 2 bytes, so the slicing hash[:2]
  is out of range -/
  | sliceOutOfRange
  /-- os.Chdir failed; prints that the specified hash does not exist -/
  | chdirFail
  /-- DecompressAndRead returned an error (printed, empty message) -/
  | readFail
  /-- the content printed by fmt.Print after the extraction loop -/
  | output (content : List Nat)
deriving DecidableEq, Repr

/-- UTF-8 continuation byte test (0x80 to 0xBF), as in Go's unicode/utf8. -/
def isCont (b : Nat) : Bool := decide (128 ≤ b ∧ b ≤ 191)

/-- Number of bytes a Go range-over-string iteration advances from the byte
sequence starting at the current index: the encoded length of a valid UTF-8
rune there, or one byte for an invalid or truncated sequence, following the
acceptance table of Go's unicode/utf8.DecodeRuneInString (0xE0 and 0xED
narrow the second byte to exclude overlong encodings and surrogates, 0xF0
and 0xF4 to exclude overlong encodings and values above U+10FFFF). -/
def runeSize : List Nat → Nat
  | [] => 1
  | b :: rest =>
    if b < 128 then 1
    else if 194 ≤ b ∧ b ≤ 223 then
      match rest with
      | b1 :: _ => if isCont b1 then 2 else 1
      | [] => 1
    else if 224 ≤ b ∧ b ≤ 239 then
      match rest with
      | b1 :: b2 :: _ =>
        if ((if b = 224 then 160 else 128) ≤ b1 ∧
            b1 ≤ (if b = 237 then 159 else 191)) ∧ isCont b2 then 3 else 1
      | _ => 1
    else if 240 ≤ b ∧ b ≤ 244 then
      match rest with
      | b1 :: b2 :: b3 :: _ =>
        if ((if b = 240 then 144 else 128) ≤ b1 ∧
            b1 ≤ (if b = 244 then 143 else 191)) ∧ isCont b2 ∧ isCont b3 then 4 else 1
      | _ => 1
    else 1

/-- Bytes appended by the Go conversion string(b) for a byte value b: the
UTF-8 encoding of the code point b — the byte itself below 0x80, and a
two-byte sequence for 0x80 to 0xFF. -/
def utf8Bytes (b : Nat) : List Nat :=
  if b < 128 then [b] else [192 + b / 64, 128 + b % 64]

/-- The extraction loop of cat-file.  The Go loop ranges over the string by
rune boundaries (an iteration advances by the size of the rune at the index,
one byte when invalid), reads the single byte at each boundary index, sets
the flag at a NUL byte, and when the flag is set appends string(byte) — the
UTF-8 re-encoding of that byte — for every non-NUL boundary byte.  The fuel
argument bounds the iteration count (each step consumes at least one byte). -/
def catFileLoopAux : Nat → Bool → List Nat → List Nat
  | 0, _, _ => []
  | _ + 1, _, [] => []
  | fuel + 1, flag, b :: rest =>
    if (if b = 0 then true else flag) && (b != 0) then
      utf8Bytes b ++
        catFileLoopAux fuel (if b = 0 then true else flag)
          (rest.drop (runeSize (b :: rest) - 1))
    else
      catFileLoopAux fuel (if b = 0 then true else flag)
        (rest.drop (runeSize (b :: rest) - 1))

/-- The content cat-file prints for decompressed bytes s. -/
def catFileExtract (s : List Nat) : List Nat := catFileLoopAux s.length false s

/-- Embedding of the cat-file branch.  dirExists tells whether the fan-out
directory passed to os.Chdir exists; readResult is the outcome of
DecompressAndRead on the remaining file name.  A successful Chdir with a
relative path appends the path to the current working directory. -/
def catFileRun (dirExists : List Nat → Bool) (readResult : DecompressResult)
    (hash : List Nat) (s : ProcState) : CatFileOutcome × ProcState :=
  if hash.length < 2 then (.sliceOutOfRange, s)
  else
    let dirName := hash.take 2
    if dirExists dirName then
      let s2 : ProcState := ⟨s.cwd ++ 47 :: (gitObjectsDir ++ dirName)⟩
      match readResult with
      | .err _ => (.readFail, s2)
      | .ok content => (.output (catFileExtract content), s2)
    else (.chdirFail, s)

/-- Outcome of the ls-tree branch. -/
inductive LsTreeOutcome where
  /-- runtime panic: hash has fewer than 2 bytes, so the slicing hash[:2]
  is out of range -/
  | sliceOutOfRange
  /-- os.Chdir failed; prints that the specified hash does not exist -/
  | chdirFail
  /-- parseGitObject returned an error, printed to standard error -/
  | parseFail
  /-- the object was a tree: prints a fixed line and then the raw payload -/
  | treeOut (payload : List Nat)
  /-- the object was a blob: prints a fixed line and then the payload -/
  | blobOut (payload : List Nat)
  /-- any other object type: prints that the type is unsupported -/
  | unsupported
deriving DecidableEq, Repr

/-- Embedding of the ls-tree branch.  The source discards the error of
DecompressAndRead, so on failure the content is the empty string; the call
parseGitObject(content) in the source names an identifier that is not in
scope there (a compile error in the original), modelled here per the evident
intent as parsing the decompressed content.  No tree-entry parsing exists:
a tree object only has its raw payload printed. -/
def lsTreeRun (dirExists : List Nat → Bool) (readResult : DecompressResult)
    (hash : List Nat) (s : ProcState) : LsTreeOutcome × ProcState :=
  if hash.length < 2 then (.sliceOutOfRange, s)
  else
    let dirName := hash.take 2
    if dirExists dirName then
      let s2 : ProcState := ⟨s.cwd ++ 47 :: (gitObjectsDir ++ dirName)⟩
      let content := match readResult with | .err _ => [] | .ok d => d
      match parseGitObject content with
      | .err _ => (.parseFail, s2)
      | .ok header objectData =>
        if header.objectType = treeBytes then (.treeOut objectData, s2)
        else if header.objectType = blobBytes then (.blobOut objectData, s2)
        else (.unsupported, s2)
    else (.chdirFail, s)

/-- Embedding of the hash-object branch together with the process state:
this branch performs no os.Chdir (os.MkdirAll and os.Create receive paths
relative to the unchanged working directory), so the state passes through. -/
def hashObjectRun (compress : List Nat → List Nat) (readRes : Option (List Nat))
    (statRes : Option Nat) (s : ProcState) : HashObjectResult × ProcState :=
  (hashObjectGo compress readRes statRes, s)

lemma splitFirst_eq_none (sep : Nat) (s : List Nat) :
    splitFirst sep s = none ↔ sep ∉ s := by
  induction s with
  | nil => simp [splitFirst]
  | cons c t ih =>
    by_cases hc : c = sep
    · subst hc; simp [splitFirst]
    · cases h : splitFirst sep t with
      | none =>
        have ht : sep ∉ t := ih.mp h
        simp [splitFirst, hc, h, List.mem_cons, ht]
        exact fun hh => hc hh.symm
      | some ab =>
        obtain ⟨a, b⟩ := ab
        have ht : sep ∈ t := by
          by_contra hm
          rw [ih.mpr hm] at h
          exact Option.noConfusion h
        simp [splitFirst, hc, h, List.mem_cons, ht]

lemma splitFirst_append (sep : Nat) (a b : List Nat) (ha : sep ∉ a) :
    splitFirst sep (a ++ sep :: b) = some (a, b) := by
  induction a with
  | nil => simp [splitFirst]
  | cons c t ih =>
    have hc : ¬ (c = sep) := by
      intro h
      exact ha (by rw [h]; exact List.mem_cons_self sep t)
    have ht : sep ∉ t := fun h => ha (List.mem_cons_of_mem c h)
    simp [splitFirst, hc, ih ht]

lemma digitsVal_append (xs : List Nat) (d : Nat) :
    digitsVal (xs ++ [d]) = 10 * digitsVal xs + (d - 48) := by
  simp [digitsVal, List.foldl_append]

lemma natDigitsAux_spec : ∀ fuel n, n < fuel →
    digitsVal (natDigitsAux fuel n) = n ∧ natDigitsAux fuel n ≠ [] ∧
    ∀ d ∈ natDigitsAux fuel n, 48 ≤ d ∧ d ≤ 57 := by
  intro fuel
  induction fuel with
  | zero => intro n h; exact absurd h (Nat.not_lt_zero n)
  | succ f ih =>
    intro n h
    by_cases h10 : n < 10
    · refine ⟨?_, ?_, ?_⟩
      · simp [natDigitsAux, h10, digitsVal]
      · simp [natDigitsAux, h10]
      · intro d hd
        simp [natDigitsAux, h10] at hd
        omega
    · have hstep : n / 10 < f := by
        have h1 : n / 10 < n := Nat.div_lt_self (by omega) (by omega)
        omega
      obtain ⟨hv, hne, hmem⟩ := ih (n / 10) hstep
      simp only [natDigitsAux, if_neg h10]
      refine ⟨?_, ?_, ?_⟩
      · rw [digitsVal_append, hv]; omega
      · simp
      · intro d hd
        rcases List.mem_append.mp hd with h1 | h1
        · exact hmem d h1
        · simp at h1; omega

lemma digitsVal_natDigits (n : Nat) : digitsVal (natDigits n) = n :=
  (natDigitsAux_spec (n + 1) n (Nat.lt_succ_self n)).1

lemma natDigits_ne_nil (n : Nat) : natDigits n ≠ [] :=
  (natDigitsAux_spec (n + 1) n (Nat.lt_succ_self n)).2.1

lemma natDigits_mem (n : Nat) : ∀ d ∈ natDigits n, 48 ≤ d ∧ d ≤ 57 :=
  (natDigitsAux_spec (n + 1) n (Nat.lt_succ_self n)).2.2

lemma zero_not_mem_natDigits (n : Nat) : (0 : Nat) ∉ natDigits n := by
  intro h
  have := natDigits_mem n 0 h
  omega

lemma atoi_natDigits (n : Nat) (h : n ≤ 2 ^ 63 - 1) :
    atoi (natDigits n) = some (n : Int) := by
  cases hnd : natDigits n with
  | nil => exact absurd hnd (natDigits_ne_nil n)
  | cons c cs =>
    have hc : 48 ≤ c ∧ c ≤ 57 :=
      natDigits_mem n c (by rw [hnd]; exact List.mem_cons_self c cs)
    have hsign : ¬ (c = 45 ∨ c = 43) := by omega
    have hall : (c :: cs).all isDigitByte = true := by
      rw [← hnd]
      apply List.all_eq_true.mpr
      intro d hd
      have := natDigits_mem n d hd
      simp [isDigitByte]
      omega
    have hval : digitsVal (c :: cs) = n := by rw [← hnd]; exact digitsVal_natDigits n
    have hc45 : ¬ (c = 45) := by omega
    have hc43 : ¬ (c = 43) := by omega
    have hall2 : ∀ x ∈ c :: cs, isDigitByte x = true := List.all_eq_true.mp hall
    simp [atoi, hsign, hall, hval, hc45, hc43]
    omega

lemma runeSize_ascii (b : Nat) (rest : List Nat) (hb : b < 128) :
    runeSize (b :: rest) = 1 := by
  simp [runeSize, hb]

lemma catFileLoopAux_true_ascii : ∀ (p : List Nat) (fuel : Nat), p.length ≤ fuel →
    (∀ c ∈ p, c < 128) → catFileLoopAux fuel true p = p.filter (fun b => b != 0) := by
  intro p
  induction p with
  | nil => intro fuel _ _; cases fuel <;> rfl
  | cons b rest ih =>
    intro fuel hf hascii
    cases fuel with
    | zero => simp at hf
    | succ f =>
      have hb : b < 128 := hascii b (List.mem_cons_self b rest)
      have hrest : ∀ c ∈ rest, c < 128 := fun c hc => hascii c (List.mem_cons_of_mem b hc)
      have hfr : rest.length ≤ f := by simp at hf; omega
      by_cases h0 : b = 0
      · subst h0
        simp [catFileLoopAux, runeSize_ascii 0 rest (by omega), ih f hfr hrest]
      · simp [catFileLoopAux, runeSize_ascii b rest hb, h0, ih f hfr hrest, utf8Bytes, hb]

lemma catFileLoopAux_header : ∀ (xs : List Nat) (fuel : Nat) (p : List Nat),
    (∀ c ∈ xs, c ≠ 0 ∧ c < 128) → xs.length + 1 + p.length ≤ fuel →
    catFileLoopAux fuel false (xs ++ 0 :: p) =
      catFileLoopAux (fuel - (xs.length + 1)) true p := by
  intro xs
  induction xs with
  | nil =>
    intro fuel p _ hf
    cases fuel with
    | zero => simp at hf
    | succ f =>
      simp [catFileLoopAux, runeSize_ascii 0 p (by omega)]
  | cons c t ih =>
    intro fuel p hxs hf
    cases fuel with
    | zero => simp at hf
    | succ f =>
      obtain ⟨hc0, hc128⟩ := hxs c (List.mem_cons_self c t)
      have ht : ∀ d ∈ t, d ≠ 0 ∧ d < 128 := fun d hd => hxs d (List.mem_cons_of_mem c hd)
      have hft : t.length + 1 + p.length ≤ f := by simp at hf; omega
      have hstep : catFileLoopAux (f + 1) false ((c :: t) ++ 0 :: p) =
          catFileLoopAux f false (t ++ 0 :: p) := by
        simp [catFileLoopAux, runeSize_ascii c (t ++ 0 :: p) hc128, hc0]
      rw [hstep, ih f p ht hft]
      have harith : f - (t.length + 1) = f + 1 - ((c :: t).length + 1) := by
        have hl : (c :: t).length = t.length + 1 := rfl
        omega
      rw [harith]

lemma catFileExtract_encode_ascii (p : List Nat) (hp : ∀ c ∈ p, c < 128) :
    catFileExtract (encodeObject blobBytes p) = p.filter (fun b => b != 0) := by
  have hsplit : encodeObject blobBytes p =
      (blobBytes ++ 32 :: natDigits p.length) ++ 0 :: p := by
    simp [encodeObject]
  have hxs : ∀ c ∈ blobBytes ++ 32 :: natDigits p.length, c ≠ 0 ∧ c < 128 := by
    intro c hc
    rcases List.mem_append.mp hc with h | h
    · simp [blobBytes] at h; omega
    · rcases List.mem_cons.mp h with h | h
      · omega
      · have := natDigits_mem p.length c h; omega
  have hlen : ((blobBytes ++ 32 :: natDigits p.length) ++ 0 :: p).length =
      (blobBytes ++ 32 :: natDigits p.length).length + 1 + p.length := by
    simp; omega
  rw [catFileExtract, hsplit, hlen,
    catFileLoopAux_header (blobBytes ++ 32 :: natDigits p.length)
      ((blobBytes ++ 32 :: natDigits p.length).length + 1 + p.length) p hxs (le_refl _)]
  have hsub : (blobBytes ++ 32 :: natDigits p.length).length + 1 + p.length -
      ((blobBytes ++ 32 :: natDigits p.length).length + 1) = p.length := by omega
  rw [hsub, catFileLoopAux_true_ascii p p.length (le_refl _) hp]

lemma filter_ne_zero_of_not_mem (p : List Nat) (h : (0 : Nat) ∉ p) :
    p.filter (fun b => b != 0) = p := by
  apply List.filter_eq_self.mpr
  intro a ha
  simp only [bne_iff_ne, ne_eq]
  intro hz
  exact h (hz ▸ ha)

lemma beBytes_length (n v : Nat) : (beBytes n v).length = n := by
  simp [beBytes]

lemma sha1_length (msg : List Nat) : (sha1 msg).length = 20 := by
  simp [sha1, beBytes_length]

lemma toHex_length (bs : List Nat) : (toHex bs).length = 2 * bs.length := by
  induction bs with
  | nil => rfl
  | cons b t ih => simp [toHex, hexByte, ih]; omega

lemma hexDigit_range (k : Nat) (h : k < 16) :
    (48 ≤ hexDigit k ∧ hexDigit k ≤ 57) ∨ (97 ≤ hexDigit k ∧ hexDigit k ≤ 102) := by
  unfold hexDigit; split <;> omega

lemma toHex_mem (bs : List Nat) :
    ∀ c ∈ toHex bs, (48 ≤ c ∧ c ≤ 57) ∨ (97 ≤ c ∧ c ≤ 102) := by
  induction bs with
  | nil => intro c h; simp [toHex] at h
  | cons b t ih =>
    intro c hc
    rcases List.mem_append.mp hc with h | h
    · simp [hexByte] at h
      rcases h with h | h <;> subst h <;> exact hexDigit_range _ (by omega)
    · exact ih c h

lemma writeDigest_length (p : List Nat) : (writeDigest p).length = 40 := by
  simp [writeDigest, toHex_length, sha1_length]

lemma buildBlobPath_ge_two : ∀ (t : List Nat) (i : Nat), 2 ≤ i → buildBlobPath i t = t := by
  intro t
  induction t with
  | nil => intro i _; rfl
  | cons c r ih =>
    intro i h
    have h1 : ¬ (i = 1) := by omega
    simp [buildBlobPath, h1, ih (i + 1) (by omega)]

lemma buildBlobPath_eq (a b : Nat) (t : List Nat) :
    buildBlobPath 0 (a :: b :: t) = a :: b :: 47 :: t := by
  simp [buildBlobPath, buildBlobPath_ge_two t 2 (by omega)]

lemma blobPathOf_eq (h : List Nat) (hh : 2 ≤ h.length) :
    blobPathOf h = gitObjectsDir ++ (h.take 2 ++ 47 :: h.drop 2) := by
  cases h with
  | nil => simp at hh
  | cons a r =>
    cases r with
    | nil => simp at hh
    | cons b t => simp [blobPathOf, buildBlobPath_eq]

/-- Modelled from the spec: the claim wording "a valid non-negative decimal
integer" for the size token — a nonempty run of decimal digit bytes with no
sign.  Stated only to compare the claim against the embedded Atoi. -/
def specNonNegDecimal (s : List Nat) : Bool := !s.isEmpty && s.all isDigitByte

/-- C1: decoding the canonical encoding of a supported object type (blob or
tree) and an arbitrary payload, including payloads that are empty or contain
NUL bytes, returns the original type, the payload length as the size, and
the payload itself, whenever the payload length is representable in a 64-bit
int (always true of a Go slice). -/
theorem c1_codec_roundtrip (t p : List Nat) (ht : t = blobBytes ∨ t = treeBytes)
    (hp : p.length ≤ 2 ^ 63 - 1) :
    parseGitObject (encodeObject t p) = .ok ⟨t, (p.length : Int)⟩ p := by
  have h32 : (32 : Nat) ∉ t := by rcases ht with h | h <;> subst h <;> decide
  simp only [parseGitObject, encodeObject,
    splitFirst_append 32 t (natDigits p.length ++ 0 :: p) h32,
    splitFirst_append 0 (natDigits p.length) p (zero_not_mem_natDigits p.length),
    atoi_natDigits p.length hp]

/-- Witness for C1: the round-trip at the blob type and the two-byte payload
[0, 255], which contains a NUL byte. -/
theorem c1_codec_roundtrip_witness :
    ([0, 255] : List Nat).length ≤ 2 ^ 63 - 1 ∧
    parseGitObject (encodeObject blobBytes [0, 255]) = .ok ⟨blobBytes, 2⟩ [0, 255] :=
  ⟨by norm_num, c1_codec_roundtrip blobBytes [0, 255] (Or.inl rfl) (by norm_num)⟩

/-- C4 counterexample: the input "blob -1\x00a" has a space and a NUL and its
size token "-1" is not a valid non-negative decimal integer, so by the claim
the decode must fail with MalformedHeader; the code decodes it successfully
with size -1. -/
theorem c4_counterexample :
    parseGitObject (blobBytes ++ 32 :: ([45, 49] ++ 0 :: [97])) =
      .ok ⟨blobBytes, -1⟩ [97] ∧ specNonNegDecimal [45, 49] = false := by
  constructor
  · decide
  · decide

/-- C4 (amended): parseGitObject fails exactly when no space is found, or no
NUL byte follows the first space, or the size token is not accepted by
strconv.Atoi — an optionally signed (so possibly negative) decimal integer in
the 64-bit int range; a successful decode never requires the declared size to
equal the payload length. -/
theorem c4_amended :
    (∀ content : List Nat, parseGitObject content = .err .noSpace ↔ 32 ∉ content) ∧
    (∀ t rest : List Nat, 32 ∉ t →
      (parseGitObject (t ++ 32 :: rest) = .err .missingNull ↔ 0 ∉ rest)) ∧
    (∀ t sz p : List Nat, 32 ∉ t → 0 ∉ sz →
      (parseGitObject (t ++ 32 :: (sz ++ 0 :: p)) = .err .invalidSize ↔ atoi sz = none)) ∧
    (∀ (t sz p : List Nat) (v : Int), 32 ∉ t → 0 ∉ sz → atoi sz = some v →
      parseGitObject (t ++ 32 :: (sz ++ 0 :: p)) = .ok ⟨t, v⟩ p) := by
  refine ⟨?_, ?_, ?_, ?_⟩
  · intro content
    cases h : splitFirst 32 content with
    | none => simp [parseGitObject, h, (splitFirst_eq_none 32 content).mp h]
    | some ab =>
      obtain ⟨a, b⟩ := ab
      have hmem : 32 ∈ content := by
        by_contra hm
        rw [(splitFirst_eq_none 32 content).mpr hm] at h
        exact Option.noConfusion h
      cases h2 : splitFirst 0 b with
      | none => simp [parseGitObject, h, h2, hmem]
      | some cd =>
        obtain ⟨c, d⟩ := cd
        cases h3 : atoi c <;> simp [parseGitObject, h, h2, h3, hmem]
  · intro t rest h32
    cases h2 : splitFirst 0 rest with
    | none =>
      simp [parseGitObject, splitFirst_append 32 t rest h32, h2,
        (splitFirst_eq_none 0 rest).mp h2]
    | some cd =>
      obtain ⟨c, d⟩ := cd
      have hmem : 0 ∈ rest := by
        by_contra hm
        rw [(splitFirst_eq_none 0 rest).mpr hm] at h2
        exact Option.noConfusion h2
      cases h3 : atoi c <;>
        simp [parseGitObject, splitFirst_append 32 t rest h32, h2, h3, hmem]
  · intro t sz p h32 h0
    cases h3 : atoi sz <;>
      simp [parseGitObject, splitFirst_append 32 t (sz ++ 0 :: p) h32,
        splitFirst_append 0 sz p h0, h3]
  · intro t sz p v h32 h0 h3
    simp [parseGitObject, splitFirst_append 32 t (sz ++ 0 :: p) h32,
      splitFirst_append 0 sz p h0, h3]

/-- Witness for C4 (amended): the size token "5" is accepted by Atoi and the
input "blob 5\x00a" decodes successfully with size 5 even though the payload
has length 1. -/
theorem c4_amended_witness :
    (32 : Nat) ∉ blobBytes ∧ (0 : Nat) ∉ ([53] : List Nat) ∧ atoi [53] = some 5 ∧
    parseGitObject (blobBytes ++ 32 :: ([53] ++ 0 :: [97])) = .ok ⟨blobBytes, 5⟩ [97] :=
  ⟨by decide, by decide, by decide,
    c4_amended.2.2.2 blobBytes [53] [97] 5 (by decide) (by decide) (by decide)⟩

/-- C2 counterexample: writing the payload "a\x00b" (with the identity
compressor) and extracting it back through the cat-file loop yields "ab" —
the NUL byte inside the payload is dropped — and the NUL-free one-byte
payload 0xFF reads back as the two bytes 0xC3 0xBF, its UTF-8 re-encoding;
in neither case does the printed content equal the original bytes. -/
theorem c2_counterexample :
    hashObjectGo id (some [97, 0, 98]) (some 3) =
      .ok (blobPathOf (writeDigest [97, 0, 98])) (encodeObject blobBytes [97, 0, 98])
        (writeDigest [97, 0, 98]) ∧
    catFileExtract (encodeObject blobBytes [97, 0, 98]) = [97, 98] ∧
    ([97, 98] : List Nat) ≠ [97, 0, 98] ∧
    catFileExtract (encodeObject blobBytes [255]) = [195, 191] ∧
    ([195, 191] : List Nat) ≠ [255] := by
  refine ⟨rfl, by decide, by decide, by decide, by decide⟩

/-- C2 (amended): reading back a written blob through cat-file does not
return the payload verbatim in general: the loop walks the decompressed
string by UTF-8 rune boundaries and re-encodes each boundary byte, so bytes
at or above 0x80 are corrupted; for an ASCII payload (every byte below
0x80) the content is the payload with every NUL byte removed — the loop
skips NUL bytes — and so equals the original payload exactly when the ASCII
payload contains no NUL byte.  The zlib codec is abstracted as any
compress/decompress pair with decompress inverting compress. -/
theorem c2_amended (compress decompress : List Nat → List Nat) (p hash : List Nat)
    (d : List Nat → Bool) (s : ProcState)
    (hinv : ∀ b, decompress (compress b) = b)
    (hascii : ∀ c ∈ p, c < 128)
    (hlen : 2 ≤ hash.length) (hdir : d (hash.take 2) = true) :
    hashObjectGo compress (some p) (some p.length) =
      .ok (blobPathOf (writeDigest p)) (compress (encodeObject blobBytes p)) (writeDigest p) ∧
    (catFileRun d (.ok (decompress (compress (encodeObject blobBytes p)))) hash s).1 =
      .output (p.filter (fun b => b != 0)) ∧
    ((0 : Nat) ∉ p →
      (catFileRun d (.ok (decompress (compress (encodeObject blobBytes p)))) hash s).1 =
        .output p) := by
  have h2 : ¬ (hash.length < 2) := by omega
  refine ⟨rfl, ?_, ?_⟩
  · simp [catFileRun, h2, hdir, hinv, catFileExtract_encode_ascii p hascii]
  · intro h0
    simp [catFileRun, h2, hdir, hinv, catFileExtract_encode_ascii p hascii,
      filter_ne_zero_of_not_mem p h0]

/-- Witness for C2 (amended): with the identity codec, the ASCII NUL-free
payload "hi" is written and read back verbatim. -/
theorem c2_amended_witness :
    (0 : Nat) ∉ ([104, 105] : List Nat) ∧
    (∀ c ∈ ([104, 105] : List Nat), c < 128) ∧
    2 ≤ ([97, 98] : List Nat).length ∧
    (catFileRun (fun _ => true) (.ok (id (id (encodeObject blobBytes [104, 105]))))
        [97, 98] ⟨[]⟩).1 = .output [104, 105] :=
  ⟨by decide, by decide, by decide,
    (c2_amended id id [104, 105] [97, 98] (fun _ => true) ⟨[]⟩ (fun _ => rfl)
      (by decide) (by decide) rfl).2.2 (by decide)⟩

/-- C3: the digest hash-object prints is the lowercase-hex rendering of the
20-byte SHA-1 of the full encoded byte sequence (header plus payload): it is
40 characters, every character a lowercase hexadecimal digit, and it is the
same for two invocations on the identical payload whatever the state of the
compressor, since it depends only on the encoded bytes. -/
theorem c3_digest (compress compress2 : List Nat → List Nat) (p : List Nat) :
    hashObjectGo compress (some p) (some p.length) =
      .ok (blobPathOf (writeDigest p)) (compress (encodeObject blobBytes p)) (writeDigest p) ∧
    writeDigest p = toHex (sha1 (encodeObject blobBytes p)) ∧
    (writeDigest p).length = 40 ∧
    (∀ c ∈ writeDigest p, (48 ≤ c ∧ c ≤ 57) ∨ (97 ≤ c ∧ c ≤ 102)) ∧
    (sha1 (encodeObject blobBytes p)).length = 20 ∧
    hashObjectGo compress2 (some p) (some p.length) =
      .ok (blobPathOf (writeDigest p)) (compress2 (encodeObject blobBytes p)) (writeDigest p) := by
  refine ⟨rfl, rfl, writeDigest_length p, ?_, sha1_length _, rfl⟩
  intro c hc
  exact toHex_mem _ c hc

set_option maxRecDepth 10000 in
/-- The embedded SHA-1 and hex rendering agree with the well-known reference
digest of the blob encoding of "hello\n" (the golden value pinned by the
specification's end-to-end scenario). -/
theorem sha1_reference_value :
    writeDigest helloBytes =
      [99, 101, 48, 49, 51, 54, 50, 53, 48, 51, 48, 98, 97, 56, 100, 98, 97, 57, 48, 54,
       102, 55, 53, 54, 57, 54, 55, 102, 57, 101, 57, 99, 97, 51, 57, 52, 52, 54, 52, 97] := by
  decide

set_option maxRecDepth 10000 in
/-- The digest depends on the header, not on the payload alone: hashing the
bare payload gives a different digest. -/
theorem sha1_header_sensitivity :
    writeDigest helloBytes ≠ toHex (sha1 helloBytes) := by decide

/-- C5: evaluation of the ls-tree branch at the failing input.  For a stored
tree object whose payload "xxx" is not a valid sequence of tree entries, the
branch succeeds and prints the raw payload instead of failing with a
MalformedTree error, and for a stored blob object it prints the blob payload
instead of failing with UnexpectedType: no tree-entry parsing exists in the
code. -/
theorem c5_tree_stub :
    (lsTreeRun (fun _ => true) (.ok (encodeObject treeBytes [120, 120, 120]))
        (List.replicate 40 97) ⟨[]⟩).1 = .treeOut [120, 120, 120] ∧
    (lsTreeRun (fun _ => true) (.ok (encodeObject blobBytes [104]))
        (List.replicate 40 97) ⟨[]⟩).1 = .blobOut [104] := by
  constructor
  · decide
  · decide

/-- C6: a successful hash-object write stores the object at
".git/objects/" followed by the first two hex characters of the digest, a
slash, and the remaining 38 characters, and the stored bytes are the
compressed canonical encoding of the blob header and payload. -/
theorem c6_layout (compress : List Nat → List Nat) (p : List Nat) :
    hashObjectGo compress (some p) (some p.length) =
      .ok (gitObjectsDir ++ ((writeDigest p).take 2 ++ 47 :: (writeDigest p).drop 2))
        (compress (encodeObject blobBytes p)) (writeDigest p) ∧
    ((writeDigest p).take 2).length = 2 ∧ ((writeDigest p).drop 2).length = 38 := by
  refine ⟨?_, ?_, ?_⟩
  · have h : hashObjectGo compress (some p) (some p.length) =
        .ok (blobPathOf (writeDigest p)) (compress (encodeObject blobBytes p))
          (writeDigest p) := rfl
    rw [h, blobPathOf_eq (writeDigest p) (by rw [writeDigest_length]; omega)]
  · simp [List.length_take, writeDigest_length]
  · simp [List.length_drop, writeDigest_length]

/-- C7: evaluation of the cat-file branch at the failing input.  A digest
argument of one byte makes the slicing hash[:2] panic (slice bounds out of
range) in every environment, instead of returning a typed error; and a
three-character digest is accepted without any 40-character validation, its
first two bytes used as the fan-out directory. -/
theorem c7_short_digest_panic :
    (∀ (d : List Nat → Bool) (r : DecompressResult) (s : ProcState),
      (catFileRun d r [97] s).1 = .sliceOutOfRange) ∧
    (catFileRun (fun _ => true) (.ok (encodeObject blobBytes [104]))
        [97, 98, 99] ⟨[]⟩).1 = .output [104] := by
  constructor
  · intro d r s; rfl
  · decide

/-- C8 counterexample: a concrete cat-file read (fan-out directory present)
leaves the process in a different working directory than before the
operation, refuting the claim that the working directory is preserved by
every read or write operation. -/
theorem c8_counterexample :
    ((catFileRun (fun _ => true) (.ok []) [97, 98] ⟨[47, 114]⟩).2).cwd ≠ [47, 114] := by
  decide

/-- C8 (amended): the hash-object (write) branch composes its object path
explicitly and leaves the working directory unchanged, but the cat-file and
ls-tree (read) branches call os.Chdir — when the fan-out directory exists,
the working directory afterwards is the previous one extended with
".git/objects/" and the first two digest characters, and it is never
restored. -/
theorem c8_amended :
    (∀ (compress : List Nat → List Nat) (readRes : Option (List Nat))
        (statRes : Option Nat) (s : ProcState),
      (hashObjectRun compress readRes statRes s).2 = s) ∧
    (∀ (d : List Nat → Bool) (r : DecompressResult) (hash : List Nat) (s : ProcState),
      2 ≤ hash.length → d (hash.take 2) = true →
      ((catFileRun d r hash s).2).cwd = s.cwd ++ 47 :: (gitObjectsDir ++ hash.take 2)) ∧
    (∀ (d : List Nat → Bool) (r : DecompressResult) (hash : List Nat) (s : ProcState),
      2 ≤ hash.length → d (hash.take 2) = true →
      ((lsTreeRun d r hash s).2).cwd = s.cwd ++ 47 :: (gitObjectsDir ++ hash.take 2)) := by
  refine ⟨fun _ _ _ _ => rfl, ?_, ?_⟩
  · intro d r hash s hlen hdir
    have h2 : ¬ (hash.length < 2) := by omega
    cases r <;> simp [catFileRun, h2, hdir]
  · intro d r hash s hlen hdir
    have h2 : ¬ (hash.length < 2) := by omega
    simp only [lsTreeRun, if_neg h2, hdir, if_true]
    cases hp : parseGitObject (match r with | .err _ => [] | .ok d2 => d2) with
    | err e => simp [hp]
    | ok hd od =>
      simp only [hp]
      split_ifs <;> rfl

/-- Witness for C8 (amended): a concrete cat-file read with the fan-out
directory present, starting from an empty working directory. -/
theorem c8_amended_witness :
    2 ≤ ([97, 98] : List Nat).length ∧
    ((catFileRun (fun _ => true) (.ok []) [97, 98] ⟨[]⟩).2).cwd =
      [] ++ 47 :: (gitObjectsDir ++ ([97, 98] : List Nat).take 2) :=
  ⟨by decide, c8_amended.2.1 (fun _ => true) (.ok []) [97, 98] ⟨[]⟩ (by decide) rfl⟩

/-- C9 counterexample: two different failure paths of DecompressAndRead (a
failed open; a failed zlib header read) both return an error whose message is
empty — neither non-empty nor distinguishable — and the hash-object branch,
after a discarded os.ReadFile error, proceeds and writes an object built
from the empty default content rather than reporting the failure. -/
theorem c9_counterexample :
    DecompressAndReadGo false true (some [104]) = .err [] ∧
    DecompressAndReadGo true false none = .err [] ∧
    ([] : List Nat).length = 0 ∧
    hashObjectGo id none (some 5) =
      .ok (blobPathOf (toHex (sha1 (blobBytes ++ [32, 53, 0]))))
        (blobBytes ++ [32, 53, 0]) (toHex (sha1 (blobBytes ++ [32, 53, 0]))) := by
  refine ⟨rfl, rfl, rfl, rfl⟩

/-- C9 (amended): every failure of DecompressAndRead is surfaced as an error
value, but its message is always empty (the paths are indistinguishable and
the diagnostics go to standard output instead); the hash-object branch
discards the os.ReadFile error and proceeds on the empty default content;
and the ls-tree branch discards the DecompressAndRead error and proceeds to
parse the empty string, reporting a parse failure unrelated to the real
cause. -/
theorem c9_amended :
    (∀ (o z : Bool) (r : Option (List Nat)) (m : List Nat),
      DecompressAndReadGo o z r = .err m → m = []) ∧
    (∀ (compress : List Nat → List Nat) (n : Nat),
      hashObjectGo compress none (some n) =
        .ok (blobPathOf (toHex (sha1 (blobBytes ++ 32 :: (natDigits n ++ [0])))))
          (compress (blobBytes ++ 32 :: (natDigits n ++ [0])))
          (toHex (sha1 (blobBytes ++ 32 :: (natDigits n ++ [0]))))) ∧
    (∀ (d : List Nat → Bool) (hash : List Nat) (s : ProcState) (m : List Nat),
      2 ≤ hash.length → d (hash.take 2) = true →
      (lsTreeRun d (.err m) hash s).1 = .parseFail) := by
  refine ⟨?_, fun _ _ => rfl, ?_⟩
  · intro o z r m h
    cases o <;> cases z <;> cases r <;> simp_all [DecompressAndReadGo]
  · intro d hash s m hlen hdir
    have h2 : ¬ (hash.length < 2) := by omega
    simp [lsTreeRun, h2, hdir, parseGitObject, splitFirst]

/-- Witness for C9 (amended): a concrete ls-tree invocation whose read
failed; the branch proceeds and reports a parse failure on the empty
content. -/
theorem c9_amended_witness :
    2 ≤ (List.replicate 40 97 : List Nat).length ∧
    (lsTreeRun (fun _ => true) (.err [104]) (List.replicate 40 97) ⟨[]⟩).1 = .parseFail :=
  ⟨by decide,
    c9_amended.2.2 (fun _ => true) (List.replicate 40 97) ⟨[]⟩ [104] (by decide) rfl⟩

/-- C10: when the file argument of hash-object does not exist, the discarded
os.ReadFile and os.Stat errors leave stats as a nil FileInfo, the
stats.Size() call panics, and no object file is written. -/
theorem c10_missing_file_panics (compress : List Nat → List Nat) :
    hashObjectGo compress none none = .panic ∧
    writesOf (hashObjectGo compress none none) = none :=
  ⟨rfl, rfl⟩
